import Mathlib

/-!
A shallow embedding of the async combinators in `rust/net/src/utils.rs`:
`timeout`, `first_ok` and `basic_authorization`.

An asynchronous operation whose completion instant and outcome are fixed is
modelled as an `Op`: a completion time (in abstract time units) together with
the `Result` value it yields.  `tokio::time::timeout` polls the wrapped
future before checking the deadline, so an operation that finishes at or
before the deadline delivers its own result and a later one is replaced by
the supplied error.  `FuturesUnordered` delivers results in completion-time
order, so `filter_map (result.ok) .next()` resolves to the success of
minimal completion time; among simultaneous completions the implementation
may pick any of the tied successes, which the embedding renders by a
deterministic tie-break (first in the input list).
-/

deriving instance DecidableEq for Except

/-- An asynchronous operation with a fixed behaviour: the instant it
completes and the `Result` it then yields. -/
structure Op (T E : Type) where
  time : Nat
  result : Except E T
deriving DecidableEq

/-- Embedding of `utils::timeout`: run `op` under a deadline of `duration`.
`tokio::time::timeout` polls the future before the timer, so an operation
completing at or before the deadline yields its own result; otherwise the
caller gets `Err(timeout_error)`. -/
def timeout {T E : Type} (duration : Nat) (timeout_error : E) (op : Op T E) :
    Except E T :=
  if op.time ≤ duration then op.result else Except.error timeout_error

/-- The operations of the race that complete with `Ok`; mirrors the
`filter_map (result.ok)` stage of `first_ok`. -/
def successes {T E : Type} (ops : List (Op T E)) : List (Op T E) :=
  ops.filter (fun o => o.result.isOk)

/-- The operation delivered first by a `FuturesUnordered` stream over the
given operations: one of minimal completion time (first in the list among
ties). -/
def earliest? {T E : Type} : List (Op T E) → Option (Op T E)
  | [] => none
  | o :: rest =>
    match earliest? rest with
    | none => some o
    | some b => some (if o.time ≤ b.time then o else b)

/-- Embedding of `utils::first_ok`: race all operations, return the value of
the first success, `none` when no operation succeeds. -/
def first_ok {T E : Type} (ops : List (Op T E)) : Option T :=
  (earliest? (successes ops)).bind (fun o => o.result.toOption)

/-- The instant at which every operation of the race has completed. -/
def all_done_time {T E : Type} (ops : List (Op T E)) : Nat :=
  (ops.map Op.time).foldr Nat.max 0

/-- The instant at which `first_ok` resolves: when the earliest success
completes, or — the stream having been drained without any `Ok` — when the
last operation has completed (`0` for the empty race, which resolves without
suspending). -/
def first_ok_time {T E : Type} (ops : List (Op T E)) : Nat :=
  match earliest? (successes ops) with
  | some o => o.time
  | none => all_done_time ops

/-- A sextet index mapped to the byte of the standard base64 alphabet
(RFC 4648, as used by `base64::prelude::BASE64_STANDARD`). -/
def b64char (n : Nat) : Nat :=
  if n % 64 < 26 then 65 + n % 64
  else if n % 64 < 52 then 97 + (n % 64 - 26)
  else if n % 64 < 62 then 48 + (n % 64 - 52)
  else if n % 64 = 62 then 43
  else 47

/-- Standard base64 with padding over a byte sequence
(`BASE64_STANDARD.encode`); bytes are naturals reduced mod 256. -/
def base64Encode : List Nat → List Nat
  | b1 :: b2 :: b3 :: rest =>
    b64char ((b1 % 256 * 65536 + b2 % 256 * 256 + b3 % 256) / 262144) ::
      b64char ((b1 % 256 * 65536 + b2 % 256 * 256 + b3 % 256) / 4096) ::
        b64char ((b1 % 256 * 65536 + b2 % 256 * 256 + b3 % 256) / 64) ::
          b64char (b1 % 256 * 65536 + b2 % 256 * 256 + b3 % 256) ::
            base64Encode rest
  | [b1, b2] =>
    [b64char ((b1 % 256 * 65536 + b2 % 256 * 256) / 262144),
      b64char ((b1 % 256 * 65536 + b2 % 256 * 256) / 4096),
      b64char ((b1 % 256 * 65536 + b2 % 256 * 256) / 64), 61]
  | [b1] =>
    [b64char (b1 % 256 * 65536 / 262144), b64char (b1 % 256 * 65536 / 4096),
      61, 61]
  | [] => []

/-- A byte the `http` crate accepts inside a `HeaderValue`: visible ASCII or
space, or horizontal tab. -/
def is_valid_header_byte (b : Nat) : Bool :=
  (32 ≤ b && b != 127) || b == 9

/-- The UTF-8 bytes of the literal "Basic " that `basic_authorization`
prepends. -/
def basicBytes : List Nat := [66, 97, 115, 105, 99, 32]

/-- Embedding of `utils::basic_authorization` over the UTF-8 bytes of the
two arguments: base64-encode "username:password" (58 is the colon), prepend
"Basic ", and build the `HeaderValue`; `HeaderValue::try_from ... .expect`
is rendered as an `Option`, with `none` standing for the panic. -/
def basic_authorization (username password : List Nat) : Option (List Nat) :=
  let value := basicBytes ++ base64Encode (username ++ [58] ++ password)
  if value.all is_valid_header_byte then some value else none

theorem earliest_isSome {T E : Type} (o : Op T E) (rest : List (Op T E)) :
    (earliest? (o :: rest)).isSome = true := by
  cases h : earliest? rest <;> simp [earliest?, h]

theorem earliest_mem {T E : Type} :
    ∀ (l : List (Op T E)) (b : Op T E), earliest? l = some b → b ∈ l
  | [], b, h => by simp [earliest?] at h
  | o :: rest, b, h => by
    cases hr : earliest? rest with
    | none =>
      simp only [earliest?, hr, Option.some.injEq] at h
      simp [h]
    | some c =>
      simp only [earliest?, hr, Option.some.injEq] at h
      split at h
      · simp [h]
      · exact List.mem_cons_of_mem o (h ▸ earliest_mem rest c hr)

theorem earliest_min {T E : Type} :
    ∀ (l : List (Op T E)) (b : Op T E), earliest? l = some b →
      ∀ x ∈ l, b.time ≤ x.time
  | [], b, h => by simp [earliest?] at h
  | o :: rest, b, h => by
    intro x hx
    cases hr : earliest? rest with
    | none =>
      have hrest : rest = [] := by
        cases rest with
        | nil => rfl
        | cons a t => have := earliest_isSome a t; simp [hr] at this
      subst hrest
      simp only [earliest?, Option.some.injEq] at h
      rcases List.mem_singleton.mp hx with rfl
      exact h ▸ Nat.le_refl _
    | some c =>
      simp only [earliest?, hr, Option.some.injEq] at h
      have hmin := earliest_min rest c hr
      rcases List.mem_cons.mp hx with rfl | hx
      · split at h
        · exact h ▸ Nat.le_refl _
        · subst h
          next hno => exact Nat.le_of_lt (Nat.lt_of_not_le hno)
      · split at h
        · next hyes => exact h ▸ Nat.le_trans hyes (hmin x hx)
        · exact h ▸ hmin x hx

theorem mem_successes {T E : Type} (ops : List (Op T E)) (o : Op T E) :
    o ∈ successes ops ↔ o ∈ ops ∧ o.result.isOk = true := by
  simp [successes, List.mem_filter]

theorem except_toOption_eq_some {T E : Type} (r : Except E T) (v : T) :
    r.toOption = some v ↔ r = Except.ok v := by
  cases r <;> simp [Except.toOption]

theorem successes_eq_nil {T E : Type} (ops : List (Op T E))
    (h : ∀ o ∈ ops, o.result.isOk = false) : successes ops = [] := by
  apply List.filter_eq_nil_iff.mpr
  intro o ho
  simp [h o ho]

theorem first_ok_none_of_all_fail {T E : Type} (ops : List (Op T E))
    (h : ∀ o ∈ ops, o.result.isOk = false) : first_ok ops = none := by
  unfold first_ok
  rw [successes_eq_nil ops h]
  rfl

theorem first_ok_isSome_of_success {T E : Type} (ops : List (Op T E))
    (hex : ∃ o ∈ ops, o.result.isOk = true) : (first_ok ops).isSome = true := by
  obtain ⟨o, ho, hok⟩ := hex
  have hmem : o ∈ successes ops := (mem_successes ops o).mpr ⟨ho, hok⟩
  cases hs : successes ops with
  | nil => simp [hs] at hmem
  | cons a t =>
    unfold first_ok
    rw [hs]
    cases hb : earliest? (a :: t) with
    | none => have := earliest_isSome a t; simp [hb] at this
    | some b =>
      have hbok : b.result.isOk = true :=
        ((mem_successes ops b).mp (hs ▸ earliest_mem _ _ hb)).2
      cases hr : b.result with
      | ok v => simp [Option.bind, hr, Except.toOption]
      | error e => rw [hr] at hbok; simp [Except.isOk, Except.toBool] at hbok

theorem le_all_done_time {T E : Type} :
    ∀ (ops : List (Op T E)), ∀ o ∈ ops, o.time ≤ all_done_time ops
  | [], o, ho => by simp at ho
  | a :: rest, o, ho => by
    have hunf : all_done_time (a :: rest) = Nat.max a.time (all_done_time rest) := rfl
    rcases List.mem_cons.mp ho with rfl | ho
    · rw [hunf]; exact Nat.le_max_left _ _
    · rw [hunf]
      exact Nat.le_trans (le_all_done_time rest o ho) (Nat.le_max_right _ _)

/-- Claim C1: for every finite collection of operations with fixed completion
times and results, `first_ok` resolves to a success whenever one exists, and
any value it returns — on any reordering of the input collection — is the
`Ok` value of an operation whose completion time is minimal among the
successes; thus the result is order-independent up to ties among
simultaneous successes, and ties always resolve to a success. -/
theorem first_ok_earliest_success_of_perm {T E : Type}
    (ops ops2 : List (Op T E)) (hperm : List.Perm ops ops2) :
    ((∃ o ∈ ops, o.result.isOk = true) → (first_ok ops2).isSome = true) ∧
    (∀ v, first_ok ops2 = some v →
      ∃ o ∈ ops, o.result = Except.ok v ∧
        ∀ o2 ∈ ops, o2.result.isOk = true → o.time ≤ o2.time) := by
  constructor
  · intro hex
    apply first_ok_isSome_of_success
    obtain ⟨o, ho, hok⟩ := hex
    exact ⟨o, hperm.mem_iff.mp ho, hok⟩
  · intro v hv
    unfold first_ok at hv
    cases hb : earliest? (successes ops2) with
    | none => rw [hb] at hv; simp at hv
    | some b =>
      rw [hb, Option.some_bind] at hv
      have hbmem : b ∈ successes ops2 := earliest_mem _ _ hb
      have hmin : ∀ x ∈ successes ops2, b.time ≤ x.time := earliest_min _ _ hb
      have hres : b.result = Except.ok v := (except_toOption_eq_some _ _).mp hv
      refine ⟨b, hperm.mem_iff.mpr ((mem_successes ops2 b).mp hbmem).1, hres, ?_⟩
      intro o2 ho2 hok2
      exact hmin o2 ((mem_successes ops2 o2).mpr ⟨hperm.mem_iff.mp ho2, hok2⟩)

/-- Witness for C1 at the spec scenario (30ms, Ok 1), (10ms, Ok 2),
(20ms, Ok 3), reordered: the race resolves to the earliest success, 2. -/
theorem first_ok_earliest_success_of_perm_witness :
    (∃ o ∈ ([Op.mk 30 (Except.ok 1), Op.mk 10 (Except.ok 2),
        Op.mk 20 (Except.ok 3)] : List (Op Nat Nat)),
      o.result = Except.ok (2 : Nat) ∧
        ∀ o2 ∈ ([Op.mk 30 (Except.ok 1), Op.mk 10 (Except.ok 2),
          Op.mk 20 (Except.ok 3)] : List (Op Nat Nat)),
            o2.result.isOk = true → o.time ≤ o2.time) :=
  (first_ok_earliest_success_of_perm
    ([Op.mk 30 (Except.ok 1), Op.mk 10 (Except.ok 2),
      Op.mk 20 (Except.ok 3)] : List (Op Nat Nat))
    ([Op.mk 10 (Except.ok 2), Op.mk 30 (Except.ok 1),
      Op.mk 20 (Except.ok 3)] : List (Op Nat Nat))
    (by decide)).2 2 rfl

/-- Claim C2: an operation completing strictly before the deadline has its
own result — success or failure — returned unchanged by `timeout`. -/
theorem timeout_returns_result_when_op_completes_first {T E : Type}
    (duration : Nat) (timeout_error : E) (op : Op T E)
    (h : op.time < duration) :
    timeout duration timeout_error op = op.result := by
  unfold timeout
  rw [if_pos (Nat.le_of_lt h)]

/-- Witness for C2: a failing operation at time 3 under a deadline of 10
keeps its own error, not the timeout error. -/
theorem timeout_returns_result_when_op_completes_first_witness :
    timeout 10 (7 : Nat) (Op.mk 3 (Except.error 5)) =
      (Except.error 5 : Except Nat Nat) :=
  timeout_returns_result_when_op_completes_first 10 7
    (Op.mk 3 (Except.error 5)) (by decide)

/-- Claim C3: an operation that would only complete after twice the deadline
is replaced by exactly the supplied timeout error, and its eventual result is
never observed — the outcome is the same whatever that result would be. -/
theorem timeout_returns_error_when_deadline_expires {T E : Type}
    (duration : Nat) (timeout_error : E) (op : Op T E)
    (h : 2 * duration < op.time) :
    timeout duration timeout_error op = Except.error timeout_error ∧
    ∀ r : Except E T,
      timeout duration timeout_error (Op.mk op.time r) =
        Except.error timeout_error := by
  have hgt : ¬ op.time ≤ duration := by omega
  constructor
  · unfold timeout
    rw [if_neg hgt]
  · intro r
    unfold timeout
    rw [if_neg hgt]

/-- Witness for C3: deadline 1, operation completing at time 3 with a
success that is discarded in favour of the timeout error. -/
theorem timeout_returns_error_when_deadline_expires_witness :
    timeout 1 (7 : Nat) (Op.mk 3 (Except.ok 5)) =
        (Except.error 7 : Except Nat Nat) ∧
      timeout 1 (7 : Nat) (Op.mk 3 (Except.error 9)) =
        (Except.error 7 : Except Nat Nat) :=
  ⟨(timeout_returns_error_when_deadline_expires 1 7
      (Op.mk 3 (Except.ok 5)) (by decide)).1,
    (timeout_returns_error_when_deadline_expires 1 7
      (Op.mk 3 (Except.ok 5)) (by decide)).2 (Except.error 9)⟩

/-- Claim C4: when every operation fails, `first_ok` returns `none` — a
value distinct from any individual error, which is never surfaced — and this
outcome is observed only once every operation has completed: the resolution
time is the time the last operation finishes, bounding every operation's
completion time. -/
theorem first_ok_none_when_all_fail {T E : Type} (ops : List (Op T E))
    (hfail : ∀ o ∈ ops, o.result.isOk = false) :
    first_ok ops = none ∧ first_ok_time ops = all_done_time ops ∧
      ∀ o ∈ ops, o.time ≤ first_ok_time ops := by
  refine ⟨first_ok_none_of_all_fail ops hfail, ?_, ?_⟩
  · unfold first_ok_time
    rw [successes_eq_nil ops hfail]
    rfl
  · intro o ho
    unfold first_ok_time
    rw [successes_eq_nil ops hfail]
    exact le_all_done_time ops o ho

/-- Witness for C4: three operations failing at 10/20/30 yield `none`,
resolved only at time 30, after all three completed. -/
theorem first_ok_none_when_all_fail_witness :
    first_ok ([Op.mk 30 (Except.error 1), Op.mk 10 (Except.error 2),
        Op.mk 20 (Except.error 3)] : List (Op Nat Nat)) = none ∧
      first_ok_time ([Op.mk 30 (Except.error 1), Op.mk 10 (Except.error 2),
        Op.mk 20 (Except.error 3)] : List (Op Nat Nat)) =
        all_done_time ([Op.mk 30 (Except.error 1), Op.mk 10 (Except.error 2),
          Op.mk 20 (Except.error 3)] : List (Op Nat Nat)) :=
  ⟨(first_ok_none_when_all_fail _ (by decide)).1,
    (first_ok_none_when_all_fail
      ([Op.mk 30 (Except.error 1), Op.mk 10 (Except.error 2),
        Op.mk 20 (Except.error 3)] : List (Op Nat Nat)) (by decide)).2.1⟩

/-- Claim C5: a failing operation never decides the race — removing it from
anywhere in the collection leaves the result of `first_ok` unchanged, so its
error is discarded and the remaining operations still race; in particular
for (30, Ok 1), (10, Err), (20, Ok 3) the result is 3, the earliest failure
being ignored. -/
theorem first_ok_ignores_failures {T E : Type} (l1 l2 : List (Op T E))
    (o : Op T E) (hfail : o.result.isOk = false) :
    first_ok (l1 ++ o :: l2) = first_ok (l1 ++ l2) ∧
    first_ok ([Op.mk 30 (Except.ok 1), Op.mk 10 (Except.error "error"),
      Op.mk 20 (Except.ok 3)] : List (Op Nat String)) = some 3 := by
  constructor
  · unfold first_ok
    have hsucc : successes (l1 ++ o :: l2) = successes (l1 ++ l2) := by
      simp only [successes, List.filter_append, List.filter_cons, hfail]
      simp
    rw [hsucc]
  · rfl

/-- Witness for C5: dropping the failure at time 10 from the scenario leaves
the race's outcome untouched. -/
theorem first_ok_ignores_failures_witness :
    first_ok ([Op.mk 30 (Except.ok 1), Op.mk 10 (Except.error "error"),
        Op.mk 20 (Except.ok 3)] : List (Op Nat String)) =
      first_ok ([Op.mk 30 (Except.ok 1),
        Op.mk 20 (Except.ok 3)] : List (Op Nat String)) :=
  (first_ok_ignores_failures [Op.mk 30 (Except.ok 1)] [Op.mk 20 (Except.ok 3)]
    (Op.mk 10 (Except.error "error")) rfl).1

/-- Claim C6: the empty race yields `none` without suspending — it resolves
at time `0`. -/
theorem first_ok_empty {T E : Type} :
    first_ok ([] : List (Op T E)) = none ∧
      first_ok_time ([] : List (Op T E)) = 0 :=
  ⟨rfl, rfl⟩

/-- Claim C7: a deadline of `0` is legal: `timeout` immediately returns the
timeout error, unless the operation completes synchronously in the same
scheduling step (time `0`), in which case its own result comes back. -/
theorem timeout_zero_duration {T E : Type} (timeout_error : E) (op : Op T E) :
    (op.time = 0 → timeout 0 timeout_error op = op.result) ∧
    (op.time ≠ 0 → timeout 0 timeout_error op = Except.error timeout_error) := by
  constructor <;> intro h <;> unfold timeout
  · rw [if_pos (Nat.le_of_eq h)]
  · rw [if_neg (by omega)]

/-- Witness for C7: at deadline 0, a synchronous operation keeps its result
and a later one is timed out. -/
theorem timeout_zero_duration_witness :
    timeout 0 (9 : Nat) (Op.mk 0 (Except.ok 4)) =
        (Except.ok 4 : Except Nat Nat) ∧
      timeout 0 (9 : Nat) (Op.mk 2 (Except.ok 4)) =
        (Except.error 9 : Except Nat Nat) :=
  ⟨(timeout_zero_duration 9 (Op.mk 0 (Except.ok 4))).1 rfl,
    (timeout_zero_duration 9 (Op.mk 2 (Except.ok 4))).2 (by decide)⟩

/-- Claim C8: each invocation produces exactly one outcome and no failure
path aborts: `timeout` yields either the operation's own result or the
supplied error (both total values), and `first_ok` yields `none` exactly
when no operation succeeds — so exactly one of the outcome shapes occurs. -/
theorem combinators_exactly_one_outcome {T E : Type} (duration : Nat) (e : E)
    (op : Op T E) (ops : List (Op T E)) :
    (timeout duration e op = op.result ∨
      timeout duration e op = Except.error e) ∧
    (first_ok ops = none ↔ ∀ o ∈ ops, o.result.isOk = false) := by
  constructor
  · unfold timeout
    split
    · exact Or.inl rfl
    · exact Or.inr rfl
  · constructor
    · intro hnone o ho
      by_contra hok
      have hsome : (first_ok ops).isSome = true :=
        first_ok_isSome_of_success ops
          ⟨o, ho, eq_true_of_ne_false hok⟩
      rw [hnone] at hsome
      simp at hsome
    · exact first_ok_none_of_all_fail ops

/-- Claim C9: a value returned by `first_ok` is always the `Ok` payload of
one of the input operations — never fabricated, never a failure's payload. -/
theorem first_ok_value_from_input {T E : Type} (ops : List (Op T E)) (v : T)
    (h : first_ok ops = some v) : ∃ o ∈ ops, o.result = Except.ok v := by
  unfold first_ok at h
  cases hb : earliest? (successes ops) with
  | none => rw [hb] at h; simp at h
  | some b =>
    rw [hb, Option.some_bind] at h
    exact ⟨b, (mem_successes ops b).mp (earliest_mem _ _ hb) |>.1,
      (except_toOption_eq_some _ _).mp h⟩

/-- Witness for C9: the value 2 returned by the concrete race is the `Ok`
payload of the operation completing at time 10. -/
theorem first_ok_value_from_input_witness :
    ∃ o ∈ ([Op.mk 10 (Except.ok 2),
        Op.mk 20 (Except.ok 3)] : List (Op Nat Nat)),
      o.result = Except.ok (2 : Nat) :=
  first_ok_value_from_input _ 2 rfl

theorem b64char_range (n : Nat) : 43 ≤ b64char n ∧ b64char n ≤ 122 := by
  unfold b64char
  split_ifs <;> omega

theorem b64char_valid (n : Nat) : is_valid_header_byte (b64char n) = true := by
  have h := b64char_range n
  simp only [is_valid_header_byte, Bool.or_eq_true, Bool.and_eq_true,
    decide_eq_true_eq, bne_iff_ne, beq_iff_eq]
  omega

theorem base64Encode_valid :
    ∀ (l : List Nat), ∀ b ∈ base64Encode l, is_valid_header_byte b = true
  | [], b, hb => by simp [base64Encode] at hb
  | [b1], b, hb => by
    simp only [base64Encode, List.mem_cons, List.not_mem_nil, or_false] at hb
    rcases hb with rfl | rfl | rfl | rfl <;>
      first
        | exact b64char_valid _
        | rfl
  | [b1, b2], b, hb => by
    simp only [base64Encode, List.mem_cons, List.not_mem_nil, or_false] at hb
    rcases hb with rfl | rfl | rfl | rfl <;>
      first
        | exact b64char_valid _
        | rfl
  | b1 :: b2 :: b3 :: rest, b, hb => by
    simp only [base64Encode, List.mem_cons] at hb
    rcases hb with rfl | rfl | rfl | rfl | hb
    · exact b64char_valid _
    · exact b64char_valid _
    · exact b64char_valid _
    · exact b64char_valid _
    · exact base64Encode_valid rest b hb

/-- Claim C10: for every username and password, `basic_authorization`
produces the header value "Basic " followed by the standard base64 encoding
of "username:password", and the `expect("valid header value")` never panics:
the `Option` rendering the panic is always `some`, since every byte of the
prefixed base64 output is a valid header byte. -/
theorem basic_authorization_never_panics (username password : List Nat) :
    basic_authorization username password =
      some (basicBytes ++ base64Encode (username ++ [58] ++ password)) := by
  unfold basic_authorization
  rw [if_pos]
  apply List.all_eq_true.mpr
  intro b hb
  rcases List.mem_append.mp hb with h | h
  · simp only [basicBytes, List.mem_cons, List.not_mem_nil, or_false] at h
    rcases h with rfl | rfl | rfl | rfl | rfl | rfl <;> rfl
  · exact base64Encode_valid _ b h
